import Mathlib

/-!
# Karaoke-Lyric: verification of the time-to-lyric mapping engine

A shallow embedding of `src/main.rs` (the karaoke terminal app).  Times are
modelled as rationals (`ℚ`); `Instant`s are absolute wall-clock instants,
so `anchor.elapsed()` at wall-clock time `now` is `max (now - anchor) 0`
(Rust's `Instant::elapsed` saturates at zero).  A `lyrics.last().unwrap()`
panic is modelled by returning `Except.error ()`.
-/

namespace Karaoke

/-- Rust `struct LyricLine` from `main.rs`. -/
structure LyricLine where
  text : String
  start_time : ℚ
  end_time : ℚ
deriving DecidableEq, Repr

/-- Rust `struct KaraokeApp` from `main.rs`.  `start_time : ℚ` is the absolute
wall-clock instant stored in the `Instant` field. -/
structure KaraokeApp where
  song_title : String
  lyrics : List LyricLine
  start_time : ℚ
  paused : Bool
  current_position : ℚ
  song_duration : ℚ
  line_delay : ℚ
deriving DecidableEq, Repr

/-- Rust `Instant::elapsed` of an anchor at wall-clock time `now`
(saturating at zero). -/
def elapsed (anchor now : ℚ) : ℚ := max (now - anchor) 0

/-- Embeds `KaraokeApp::get_current_time`, read at wall-clock time `now`. -/
def KaraokeApp.get_current_time (s : KaraokeApp) (now : ℚ) : ℚ :=
  if s.paused then
    s.current_position
  else
    min (s.current_position + elapsed s.start_time now) s.song_duration

/-- Embeds `KaraokeApp::is_song_ended`. -/
def KaraokeApp.is_song_ended (s : KaraokeApp) (now : ℚ) : Bool :=
  decide (s.song_duration ≤ s.get_current_time now)

/-- Embeds `KaraokeApp::toggle_pause`, executed at wall-clock time `now`.
Note: `self.paused` is flipped *before* `self.get_current_time()` is
called, exactly as in the source. -/
def KaraokeApp.toggle_pause (s : KaraokeApp) (now : ℚ) : KaraokeApp :=
  if s.is_song_ended now then s
  else
    let s1 := { s with paused := !s.paused }
    if s1.paused then { s1 with current_position := s1.get_current_time now }
    else { s1 with start_time := now }

/-- The membership test of the first scan in
`KaraokeApp::get_current_line_index`:
`current_time >= adjusted_start && current_time < adjusted_end`. -/
def inWindow (delay t : ℚ) (line : LyricLine) : Bool :=
  decide (line.start_time + delay ≤ t ∧ t < line.end_time + delay)

/-- The test of the backward scan in `KaraokeApp::get_current_line_index`:
`current_time >= lyrics[i].end_time + delay` (false out of range). -/
def endedIdx (lyrics : List LyricLine) (delay t : ℚ) (i : ℕ) : Bool :=
  match lyrics[i]? with
  | some line => decide (line.end_time + delay ≤ t)
  | none => false

/-- Embeds `KaraokeApp::get_current_line_index`; `Except.error ()` models the
panic of `self.lyrics.last().unwrap()` on an empty lyric list. -/
def KaraokeApp.get_current_line_index (app : KaraokeApp) (current_time : ℚ) :
    Except Unit (Option ℕ) :=
  match app.lyrics.findIdx? (inWindow app.line_delay current_time) with
  | some i => .ok (some i)
  | none =>
    match app.lyrics.getLast? with
    | none => .error ()
    | some lastLine =>
      if lastLine.end_time + app.line_delay ≤ current_time then
        .ok (some (app.lyrics.length - 1))
      else
        .ok ((List.range app.lyrics.length).reverse.find?
          (endedIdx app.lyrics app.line_delay current_time))

/-- Embeds `KaraokeApp::get_line_progress`. -/
def KaraokeApp.get_line_progress (app : KaraokeApp) (current_time : ℚ)
    (line_idx : ℕ) : ℚ :=
  if h : line_idx < app.lyrics.length then
    let line := app.lyrics[line_idx]
    let adjusted_start := line.start_time + app.line_delay
    let adjusted_end := line.end_time + app.line_delay
    if current_time < adjusted_start then 0
    else if adjusted_end ≤ current_time then 1
    else (current_time - adjusted_start) / (adjusted_end - adjusted_start)
  else 0

/-- Embeds `KaraokeApp::is_line_completed`. -/
def KaraokeApp.is_line_completed (app : KaraokeApp) (current_time : ℚ)
    (line_idx : ℕ) : Bool :=
  if h : line_idx < app.lyrics.length then
    decide ((app.lyrics[line_idx]).end_time + app.line_delay ≤ current_time)
  else false

/-! ## Progress bar (`create_progress_bar`) -/

/-- Rendered style of one character cell of the progress bar. -/
inductive Cell where
  | dot
  | played
  | unplayed
deriving DecidableEq, Repr

/-- Rust `q as usize` for the (nonnegative or saturating-to-zero) casts in
`create_progress_bar`: truncation, negative values clamped to `0`. -/
def ratToUsize (q : ℚ) : ℕ := (⌊q⌋).toNat

/-- The `filled_sub_blocks` value in `create_progress_bar`:
`((width * 100) as f64 * progress) as usize`. -/
def filled_sub_blocks (progress : ℚ) (width : ℕ) : ℕ :=
  ratToUsize ((width * 100 : ℕ) * progress)

/-- The `dot_position` value in `create_progress_bar`:
`((width as f64 * progress) as usize).min(width.saturating_sub(1))`. -/
def dot_position (progress : ℚ) (width : ℕ) : ℕ :=
  min (ratToUsize (width * progress)) (width - 1)

/-- Embeds `create_progress_bar`, abstracting each pushed span to its `Cell`
style: the dot glyph, or `━` colored white (played) or gray (unplayed).
`blocks_in_this_char = filled_sub_blocks.saturating_sub(i*100).min(100)`. -/
def create_progress_bar (progress : ℚ) (width : ℕ) : List Cell :=
  (List.range width).map fun i =>
    if i = dot_position progress width then Cell.dot
    else if 0 < min (filled_sub_blocks progress width - i * 100) 100 then
      Cell.played
    else Cell.unplayed

/-! ## Time formatting (`format_time`) -/

/-- Rust `seconds as i32`: truncation toward zero, saturating at the
`i32` range. -/
def i32_cast (q : ℚ) : ℤ :=
  max (-2147483648) (min 2147483647 (if 0 ≤ q then ⌊q⌋ else -⌊-q⌋))

/-- Rust `format!("{:02}", z)`: zero-pad to width 2 (sign-aware). -/
def pad2 (z : ℤ) : String :=
  if 0 ≤ z then (if z < 10 then "0" ++ toString z else toString z)
  else (if -z < 10 then "-0" ++ toString (-z) else toString z)

/-- Embeds `format_time` from `main.rs`:
`format!("{}:{:02}", (seconds as i32) / 60, (seconds as i32) % 60)`. -/
def format_time (seconds : ℚ) : String :=
  let mins := (i32_cast seconds).tdiv 60
  let secs := (i32_cast seconds).tmod 60
  toString mins ++ ":" ++ pad2 secs

/-! ## Control loop (`main`) -/

/-- The state-mutating actions of the event loop in `main`: the key
handlers for space / `r` / Up / Down, and the end-of-song clamp performed
at the top of each loop iteration. -/
inductive Op where
  | togglePause
  | restartKey
  | offsetUp
  | offsetDown
  | endClamp
deriving DecidableEq, Repr

/-- One event-loop mutation from `main`, executed at wall-clock time
`now`. -/
def applyOp (now : ℚ) (s : KaraokeApp) : Op → KaraokeApp
  | .togglePause => s.toggle_pause now
  | .restartKey => { s with current_position := 0, start_time := now, paused := false }
  | .offsetUp => { s with line_delay := s.line_delay + 0.1 }
  | .offsetDown => { s with line_delay := max (s.line_delay - 0.1) 0 }
  | .endClamp =>
    if s.is_song_ended now ∧ s.paused = false then
      { s with paused := true, current_position := s.song_duration }
    else s

/-- Run a trace of event-loop actions, each stamped with the wall-clock
time at which it executes. -/
def run (s : KaraokeApp) : List (Op × ℚ) → KaraokeApp
  | [] => s
  | (op, now) :: tr => run (applyOp now s op) tr

/-- The app built by `KaraokeApp::new` from a `SongConfig`, started at
wall-clock time `now0`; `line_delay` starts at `0`. -/
def initApp (title : String) (lyrics : List LyricLine) (startPos dur now0 : ℚ) :
    KaraokeApp :=
  { song_title := title
    lyrics := lyrics
    start_time := now0
    paused := false
    current_position := startPos
    song_duration := dur
    line_delay := 0 }

/-- The progress-bar ratio computed in `ui`:
`(current_time / song_duration).min(1.0)`. -/
def progress_ratio (s : KaraokeApp) (now : ℚ) : ℚ :=
  min (s.get_current_time now / s.song_duration) 1

/-- The embedded `SongConfig::load` from `song_config.rs`. -/
structure SongConfig where
  title : String
  duration : ℚ
  start_position : ℚ
  lyrics : List LyricLine
deriving DecidableEq, Repr

/-- Embeds `SongConfig::load` from `song_config.rs`: the demo song data. -/
def SongConfig.load : SongConfig :=
  { title := "Title here"
    duration := 21
    start_position := 0
    lyrics :=
      [⟨"Example line 1", 0, 3⟩, ⟨"Example line 2", 3, 6⟩,
       ⟨"Example line 3", 6, 9⟩, ⟨"Example line 4", 9, 12⟩,
       ⟨"Example line 5", 12, 15⟩, ⟨"Example line 6", 15, 18⟩,
       ⟨"Example line 7", 18, 21⟩] }

/-- Embeds `KaraokeApp::new`, started at wall-clock time `now0`. -/
def KaraokeApp.new (now0 : ℚ) : KaraokeApp :=
  initApp SongConfig.load.title SongConfig.load.lyrics
    SongConfig.load.start_position SongConfig.load.duration now0

/-! ## Well-formedness of a lyric sequence (spec §3) -/

/-- The lyric sequence is ordered by `start_time` ascending. -/
def SortedByStart (lyrics : List LyricLine) : Prop :=
  lyrics.Pairwise (fun a b => a.start_time ≤ b.start_time)

/-- Every line has `end_time > start_time`. -/
def PositiveSpans (lyrics : List LyricLine) : Prop :=
  ∀ line ∈ lyrics, line.start_time < line.end_time

/-- A well-formed lyric sequence: non-empty, ordered by `start_time`,
each line's `end_time > start_time`. -/
def WellFormedLyrics (lyrics : List LyricLine) : Prop :=
  lyrics ≠ [] ∧ SortedByStart lyrics ∧ PositiveSpans lyrics

/-- Modelled from the spec (§4.2), rule 1 membership as an index
predicate: line `i` exists and `t ∈ [start_i + offset, end_i + offset)`. -/
def windowIdx (lyrics : List LyricLine) (offset t : ℚ) (i : ℕ) : Bool :=
  ((lyrics[i]?).map (inWindow offset t)).getD false

/-- Modelled from the spec (§4.2 `active_index`): scan lines in order and
return the first `i` with `t ∈ [start_i + offset, end_i + offset)`; else,
if `t` is at or past the last line's adjusted end, the last index; else
the most recent (highest) line whose adjusted end is `≤ t`; else `none`. -/
def spec_active_index (lyrics : List LyricLine) (offset t : ℚ) : Option ℕ :=
  match (List.range lyrics.length).find? (windowIdx lyrics offset t) with
  | some i => some i
  | none =>
    if endedIdx lyrics offset t (lyrics.length - 1) then
      some (lyrics.length - 1)
    else
      ((List.range lyrics.length).filter (endedIdx lyrics offset t)).getLast?

/-- Ordering on optional indices, `none` below every index. -/
def optIdxLe : Option ℕ → Option ℕ → Prop
  | none, _ => True
  | some _, none => False
  | some i, some j => i ≤ j

instance optIdxLe.decidable (o1 o2 : Option ℕ) : Decidable (optIdxLe o1 o2) :=
  match o1, o2 with
  | none, _ => isTrue trivial
  | some _, none => isFalse fun h => h
  | some i, some j => inferInstanceAs (Decidable (i ≤ j))

/-! ## Basic lemmas on the embedded operations -/

theorem inWindow_eq_true {d t : ℚ} {line : LyricLine} :
    inWindow d t line = true ↔
      line.start_time + d ≤ t ∧ t < line.end_time + d := by
  simp [inWindow]

theorem inWindow_eq_false {d t : ℚ} {line : LyricLine} :
    inWindow d t line = false ↔
      (line.start_time + d ≤ t → line.end_time + d ≤ t) := by
  simp [inWindow, Decidable.imp_iff_not_or, not_lt, or_comm]

theorem endedIdx_eq_true {L : List LyricLine} {d t : ℚ} {i : ℕ}
    (h : i < L.length) :
    endedIdx L d t i = true ↔ (L[i]).end_time + d ≤ t := by
  simp [endedIdx, List.getElem?_eq_getElem h]

theorem endedIdx_mono {L : List LyricLine} {d t1 t2 : ℚ} {i : ℕ}
    (h12 : t1 ≤ t2) (h : endedIdx L d t1 i = true) :
    endedIdx L d t2 i = true := by
  unfold endedIdx at h ⊢
  cases hL : L[i]? with
  | none => rw [hL] at h; exact absurd h (by simp)
  | some line =>
    rw [hL] at h
    simp only [decide_eq_true_eq] at h ⊢
    exact h.trans h12

/-- If a line's window has already opened by `t1` but the window test
fails at `t1`, it also fails at every later `t2`. -/
theorem window_false_persists {d t1 t2 : ℚ} {line : LyricLine}
    (hs : line.start_time + d ≤ t1) (h12 : t1 ≤ t2)
    (hw : inWindow d t1 line = false) : inWindow d t2 line = false := by
  rw [inWindow_eq_false] at hw ⊢
  intro _
  exact (hw hs).trans h12

/-! ## Line progress (`get_line_progress`) -/

theorem get_line_progress_eq (app : KaraokeApp) (t : ℚ) (i : ℕ)
    (hi : i < app.lyrics.length) :
    app.get_line_progress t i =
      if t < (app.lyrics[i]).start_time + app.line_delay then 0
      else if (app.lyrics[i]).end_time + app.line_delay ≤ t then 1
      else (t - ((app.lyrics[i]).start_time + app.line_delay)) /
        (((app.lyrics[i]).end_time + app.line_delay) -
          ((app.lyrics[i]).start_time + app.line_delay)) := by
  simp [KaraokeApp.get_line_progress, hi]

theorem get_line_progress_bounds (app : KaraokeApp) (t : ℚ) (i : ℕ)
    (hi : i < app.lyrics.length)
    (hspan : (app.lyrics[i]).start_time < (app.lyrics[i]).end_time) :
    0 ≤ app.get_line_progress t i ∧ app.get_line_progress t i ≤ 1 := by
  rw [get_line_progress_eq app t i hi]
  have hba : (0:ℚ) < ((app.lyrics[i]).end_time + app.line_delay) -
      ((app.lyrics[i]).start_time + app.line_delay) := by linarith
  split_ifs with h1 h2
  · norm_num
  · norm_num
  · constructor
    · exact div_nonneg (by linarith) hba.le
    · rw [div_le_one hba]
      linarith

theorem get_line_progress_mono (app : KaraokeApp) (t1 t2 : ℚ) (i : ℕ)
    (hi : i < app.lyrics.length)
    (hspan : (app.lyrics[i]).start_time < (app.lyrics[i]).end_time)
    (h12 : t1 ≤ t2) :
    app.get_line_progress t1 i ≤ app.get_line_progress t2 i := by
  have hb2 := get_line_progress_bounds app t2 i hi hspan
  have hba : (0:ℚ) < ((app.lyrics[i]).end_time + app.line_delay) -
      ((app.lyrics[i]).start_time + app.line_delay) := by linarith
  rw [get_line_progress_eq app t1 i hi]
  split_ifs with h1 h2
  · exact hb2.1
  · rw [get_line_progress_eq app t2 i hi]
    rw [if_neg (by linarith), if_pos (by linarith)]
  · rw [get_line_progress_eq app t2 i hi]
    rw [if_neg (by linarith)]
    split_ifs with h3
    · rw [div_le_one hba]
      linarith
    · rw [div_le_div_iff_of_pos_right hba]
      linarith

/-- C3: for every in-range line index `i` with `end_time > start_time`,
`get_line_progress` is `0` before the adjusted start, `1` at or after the
adjusted end, the linear interpolation
`(t - adjusted_start)/(adjusted_end - adjusted_start)` in between, always
lies in `[0,1]`, and is non-decreasing in `t` for fixed `i`. -/
theorem line_progress_spec (app : KaraokeApp) (t t2 : ℚ) (i : ℕ)
    (hi : i < app.lyrics.length)
    (hspan : (app.lyrics[i]).start_time < (app.lyrics[i]).end_time)
    (h12 : t ≤ t2) :
    (t < (app.lyrics[i]).start_time + app.line_delay →
      app.get_line_progress t i = 0) ∧
    ((app.lyrics[i]).end_time + app.line_delay ≤ t →
      app.get_line_progress t i = 1) ∧
    ((app.lyrics[i]).start_time + app.line_delay ≤ t →
      t < (app.lyrics[i]).end_time + app.line_delay →
      app.get_line_progress t i =
        (t - ((app.lyrics[i]).start_time + app.line_delay)) /
          (((app.lyrics[i]).end_time + app.line_delay) -
            ((app.lyrics[i]).start_time + app.line_delay))) ∧
    (0 ≤ app.get_line_progress t i ∧ app.get_line_progress t i ≤ 1) ∧
    app.get_line_progress t i ≤ app.get_line_progress t2 i := by
  refine ⟨fun h => ?_, fun h => ?_, fun hs he => ?_,
    get_line_progress_bounds app t i hi hspan,
    get_line_progress_mono app t t2 i hi hspan h12⟩
  · rw [get_line_progress_eq app t i hi, if_pos h]
  · rw [get_line_progress_eq app t i hi, if_neg (by linarith), if_pos h]
  · rw [get_line_progress_eq app t i hi, if_neg (by linarith), if_neg (by linarith)]

/-! ## Characterization of the scans inside `get_current_line_index` -/

theorem revFind_none {n : ℕ} {p : ℕ → Bool}
    (h : (List.range n).reverse.find? p = none) :
    ∀ j, j < n → p j = false := by
  intro j hj
  rw [List.find?_eq_none] at h
  simpa using h j (by simp [List.mem_reverse, List.mem_range, hj])

theorem revFind_some {n i : ℕ} {p : ℕ → Bool}
    (h : (List.range n).reverse.find? p = some i) :
    i < n ∧ p i = true ∧ ∀ j, i < j → j < n → p j = false := by
  induction n generalizing i with
  | zero => simp at h
  | succ n ih =>
    rw [List.range_succ, List.reverse_append, List.reverse_singleton,
      List.singleton_append] at h
    by_cases hp : p n
    · rw [List.find?_cons_of_pos _ hp] at h
      obtain rfl : n = i := by simpa using h
      exact ⟨Nat.lt_succ_self n, hp, fun j h1 h2 => absurd h1 (by omega)⟩
    · rw [List.find?_cons_of_neg _ hp] at h
      obtain ⟨h1, h2, h3⟩ := ih h
      refine ⟨h1.trans (Nat.lt_succ_self n), h2, fun j hj1 hj2 => ?_⟩
      rcases Nat.lt_succ_iff_lt_or_eq.mp hj2 with hj | rfl
      · exact h3 j hj1 hj
      · exact Bool.not_eq_true _ ▸ eq_false_of_ne_true hp

theorem getLast?_eq_getElem_last {L : List LyricLine} (hne : L ≠ []) :
    L.getLast? = some (L.get ⟨L.length - 1, by
      have := List.length_pos.mpr hne; omega⟩) := by
  have hlt : L.length - 1 < L.length := by
    have := List.length_pos.mpr hne
    omega
  rw [List.getLast?_eq_getElem?, List.getElem?_eq_getElem hlt]
  rfl

/-- The first scan either errors on empty lyrics or returns a value:
totality of `get_current_line_index` on non-empty lyrics. -/
theorem get_current_line_index_total {app : KaraokeApp}
    (hne : app.lyrics ≠ []) (t : ℚ) :
    ∃ o, app.get_current_line_index t = .ok o := by
  unfold KaraokeApp.get_current_line_index
  cases hf : app.lyrics.findIdx? (inWindow app.line_delay t) with
  | some i => exact ⟨some i, rfl⟩
  | none =>
    rw [getLast?_eq_getElem_last hne]
    dsimp only
    split_ifs with h
    exacts [⟨_, rfl⟩, ⟨_, rfl⟩]

/-- On empty lyrics, the `lyrics.last().unwrap()` in
`get_current_line_index` always panics once the first scan fails
(which it always does on an empty list). -/
theorem get_current_line_index_empty {app : KaraokeApp}
    (hemp : app.lyrics = []) (t : ℚ) :
    app.get_current_line_index t = .error () := by
  unfold KaraokeApp.get_current_line_index
  rw [hemp]
  rfl

/-- Inversion: a returned index comes from exactly one of the three
rules, in order: first window match; tail rule; gap (backward) rule. -/
theorem get_current_line_index_inv {app : KaraokeApp} {t : ℚ} {i : ℕ}
    (h : app.get_current_line_index t = .ok (some i)) :
    (∃ hi : i < app.lyrics.length,
        inWindow app.line_delay t (app.lyrics[i]) = true ∧
        ∀ j (hj : j < app.lyrics.length), j < i →
          inWindow app.line_delay t (app.lyrics[j]) = false)
    ∨ ((∀ line ∈ app.lyrics, inWindow app.line_delay t line = false) ∧
        app.lyrics ≠ [] ∧ i = app.lyrics.length - 1 ∧
        endedIdx app.lyrics app.line_delay t i = true)
    ∨ ((∀ line ∈ app.lyrics, inWindow app.line_delay t line = false) ∧
        i < app.lyrics.length ∧
        endedIdx app.lyrics app.line_delay t i = true ∧
        ∀ j, i < j → j < app.lyrics.length →
          endedIdx app.lyrics app.line_delay t j = false) := by
  unfold KaraokeApp.get_current_line_index at h
  cases hf : app.lyrics.findIdx? (inWindow app.line_delay t) with
  | some k =>
    rw [hf] at h
    obtain rfl : k = i := by simpa using h
    obtain ⟨hk, hpk, hmin⟩ := List.findIdx?_eq_some_iff_getElem.mp hf
    exact Or.inl ⟨hk, hpk, fun j hj hji => by
      simpa using hmin j hji⟩
  | none =>
    rw [hf] at h
    have hallw : ∀ line ∈ app.lyrics, inWindow app.line_delay t line = false := by
      intro line hline
      simpa using List.findIdx?_eq_none_iff.mp hf line hline
    cases hl : app.lyrics.getLast? with
    | none => rw [hl] at h; exact absurd h (by simp)
    | some lastLine =>
      rw [hl] at h
      have hne : app.lyrics ≠ [] := by
        intro hemp
        rw [hemp] at hl
        exact absurd hl (by simp)
      dsimp only at h
      split_ifs at h with hcond
      · obtain rfl : app.lyrics.length - 1 = i := by simpa using h
        have hlen : 0 < app.lyrics.length := List.length_pos.mpr hne
        refine Or.inr (Or.inl ⟨hallw, hne, rfl, ?_⟩)
        rw [getLast?_eq_getElem_last hne] at hl
        obtain rfl : app.lyrics[app.lyrics.length - 1] = lastLine := by
          simpa using hl
        exact (endedIdx_eq_true (by omega)).mpr hcond
      · have hr : (List.range app.lyrics.length).reverse.find?
            (endedIdx app.lyrics app.line_delay t) = some i := by
          simpa using h
        obtain ⟨h1, h2, h3⟩ := revFind_some hr
        exact Or.inr (Or.inr ⟨hallw, h1, h2, h3⟩)

/-- Any returned index is in bounds. -/
theorem get_current_line_index_lt {app : KaraokeApp} {t : ℚ} {i : ℕ}
    (h : app.get_current_line_index t = .ok (some i)) :
    i < app.lyrics.length := by
  rcases get_current_line_index_inv h with ⟨hi, _⟩ | ⟨_, hne, hieq, _⟩ | ⟨_, hi, _⟩
  · exact hi
  · have := List.length_pos.mpr hne
    omega
  · exact hi

/-- If every window below `i` is closed at `t2` and line `i` is either
active or completed at `t2`, the function returns an index `≥ i`. -/
theorem index_lower_bound {app : KaraokeApp} {t2 : ℚ} {i : ℕ}
    (hne : app.lyrics ≠ []) (hi : i < app.lyrics.length)
    (h1 : ∀ j (hj : j < app.lyrics.length), j < i →
      inWindow app.line_delay t2 (app.lyrics[j]) = false)
    (h3 : inWindow app.line_delay t2 (app.lyrics[i]) = true ∨
      endedIdx app.lyrics app.line_delay t2 i = true) :
    ∃ k, app.get_current_line_index t2 = .ok (some k) ∧ i ≤ k := by
  unfold KaraokeApp.get_current_line_index
  cases hf : app.lyrics.findIdx? (inWindow app.line_delay t2) with
  | some k =>
    obtain ⟨hk, hpk, _⟩ := List.findIdx?_eq_some_iff_getElem.mp hf
    refine ⟨k, rfl, ?_⟩
    by_contra hik
    rw [h1 k hk (by omega)] at hpk
    exact absurd hpk (by simp)
  | none =>
    have hallw : ∀ j (hj : j < app.lyrics.length),
        inWindow app.line_delay t2 (app.lyrics[j]) = false := by
      intro j hj
      simpa using List.findIdx?_eq_none_iff.mp hf _ (List.getElem_mem hj)
    have hended : endedIdx app.lyrics app.line_delay t2 i = true := by
      rcases h3 with hw | he
      · rw [hallw i hi] at hw; exact absurd hw (by simp)
      · exact he
    rw [getLast?_eq_getElem_last hne]
    dsimp only
    split_ifs with hcond
    · exact ⟨app.lyrics.length - 1, rfl, by omega⟩
    · cases hr : (List.range app.lyrics.length).reverse.find?
          (endedIdx app.lyrics app.line_delay t2) with
      | none => rw [revFind_none hr i hi] at hended; exact absurd hended (by simp)
      | some k =>
        obtain ⟨hk, _, hmax⟩ := revFind_some hr
        refine ⟨k, rfl, ?_⟩
        by_contra hik
        rw [hmax i (by omega) hi] at hended
        exact absurd hended (by simp)

/-- In a sorted lyric list, earlier lines have earlier (or equal)
start times. -/
theorem sorted_start_le {L : List LyricLine} (hs : SortedByStart L)
    {j i : ℕ} (hj : j < L.length) (hi : i < L.length) (hji : j ≤ i) :
    (L[j]).start_time ≤ (L[i]).start_time := by
  rcases eq_or_lt_of_le hji with rfl | hlt
  · exact le_refl _
  · exact List.pairwise_iff_getElem.mp hs j i hj hi hlt

/-- The demo lyric sequence of `SongConfig::load` is well formed. -/
theorem demo_wellFormed : WellFormedLyrics (KaraokeApp.new 0).lyrics := by
  refine ⟨by simp [KaraokeApp.new, initApp, SongConfig.load], ?_, ?_⟩
  · unfold SortedByStart KaraokeApp.new initApp SongConfig.load
    norm_num [List.pairwise_cons]
  · unfold PositiveSpans KaraokeApp.new initApp SongConfig.load
    intro line hline
    fin_cases hline <;> norm_num

/-- The forward scan with early return over the lines equals the spec's
"first index in source order satisfying the window test". -/
theorem findIdx?_eq_range_find? {α : Type} (p : α → Bool) (L : List α) :
    L.findIdx? p =
      (List.range L.length).find? (fun i => ((L[i]?).map p).getD false) := by
  induction L with
  | nil => rfl
  | cons a L ih =>
    rw [List.length_cons, List.range_succ_eq_map, List.find?_cons]
    cases hp : p a
    · simp only [List.getElem?_cons_zero, Option.map_some', Option.getD_some, hp]
      rw [List.find?_map]
      have hcomp : ((fun i => (((a :: L)[i]?).map p).getD false) ∘ Nat.succ) =
          fun i => ((L[i]?).map p).getD false := by
        funext i
        simp [Function.comp, List.getElem?_cons_succ]
      rw [hcomp, ← ih]
      rw [List.findIdx?_cons, hp]
      simp [List.findIdx?_succ]
    · simp only [List.getElem?_cons_zero, Option.map_some', Option.getD_some, hp]
      rw [List.findIdx?_cons, hp]
      simp

/-- The window test over lines agrees with the spec's index form. -/
theorem windowIdx_eq_inWindow {L : List LyricLine} {d t : ℚ} :
    (fun i => ((L[i]?).map (inWindow d t)).getD false) = windowIdx L d t := rfl

/-- C1: for every well-formed lyric sequence and every time `t`,
`get_current_line_index` returns exactly what the spec's `active_index`
prescribes: the first line whose adjusted window contains `t`; else the
last index when `t` is at or past the last line's adjusted end; else the
most recent (highest) line whose adjusted end is `≤ t`; else `none` —
with exactly this precedence among the three rules. -/
theorem active_index_refines_spec (app : KaraokeApp) (t : ℚ)
    (hwf : WellFormedLyrics app.lyrics) :
    app.get_current_line_index t =
      .ok (spec_active_index app.lyrics app.line_delay t) := by
  obtain ⟨hne, -, -⟩ := hwf
  have hn : 0 < app.lyrics.length := List.length_pos.mpr hne
  unfold KaraokeApp.get_current_line_index spec_active_index
  rw [← windowIdx_eq_inWindow, ← findIdx?_eq_range_find?]
  cases hf : app.lyrics.findIdx? (inWindow app.line_delay t) with
  | some i => rfl
  | none =>
    rw [getLast?_eq_getElem_last hne]
    dsimp only
    rw [List.filter_getLast?]
    by_cases hcond : (app.lyrics.get ⟨app.lyrics.length - 1, by omega⟩).end_time +
        app.line_delay ≤ t
    · rw [if_pos hcond, if_pos ((endedIdx_eq_true (by omega)).mpr hcond)]
    · rw [if_neg hcond, if_neg (by
        intro hc
        exact hcond ((endedIdx_eq_true (by omega)).mp hc))]

/-- Witness for C1 at the demo app, `t = 4`. -/
theorem active_index_refines_spec_witness :
    (KaraokeApp.new 0).get_current_line_index 4 =
      .ok (spec_active_index (KaraokeApp.new 0).lyrics
        (KaraokeApp.new 0).line_delay 4) :=
  active_index_refines_spec (KaraokeApp.new 0) 4 demo_wellFormed

/-- Common derivation for the tail/gap cases: if no window is open at
`t1` and line `i` has ended by `t1`, then at any `t2 ≥ t1` all windows
below `i` are closed and line `i` is still ended. -/
theorem gap_case_bound {app : KaraokeApp} {t1 t2 : ℚ} {i : ℕ}
    (hsort : SortedByStart app.lyrics) (hspan : PositiveSpans app.lyrics)
    (hi : i < app.lyrics.length)
    (hallw : ∀ line ∈ app.lyrics, inWindow app.line_delay t1 line = false)
    (hend : endedIdx app.lyrics app.line_delay t1 i = true)
    (h12 : t1 ≤ t2) :
    (∀ j (hj : j < app.lyrics.length), j < i →
      inWindow app.line_delay t2 (app.lyrics[j]) = false) ∧
    (inWindow app.line_delay t2 (app.lyrics[i]) = true ∨
      endedIdx app.lyrics app.line_delay t2 i = true) := by
  have hende : (app.lyrics[i]).end_time + app.line_delay ≤ t1 :=
    (endedIdx_eq_true hi).mp hend
  have hsi : (app.lyrics[i]).start_time < (app.lyrics[i]).end_time :=
    hspan _ (List.getElem_mem hi)
  refine ⟨fun j hj hji => ?_, Or.inr (endedIdx_mono h12 hend)⟩
  have hsj : (app.lyrics[j]).start_time ≤ (app.lyrics[i]).start_time :=
    sorted_start_le hsort (lt_of_le_of_lt (le_of_lt hji) hi) hi (le_of_lt hji)
  exact window_false_persists (by linarith) h12 (hallw _ (List.getElem_mem hj))

/-- C2: for every well-formed lyric sequence, fixed sync offset, and all
times `t1 ≤ t2` in `[0, duration]`, the index returned by
`get_current_line_index` at `t1` is `≤` the index returned at `t2`
(`none` treated as below every index): the active index never jumps
backward as time increases. -/
theorem active_index_monotone (app : KaraokeApp) (t1 t2 : ℚ)
    (hwf : WellFormedLyrics app.lyrics) (h0 : 0 ≤ t1) (h12 : t1 ≤ t2)
    (hdur : t2 ≤ app.song_duration) :
    ∃ o1 o2, app.get_current_line_index t1 = .ok o1 ∧
      app.get_current_line_index t2 = .ok o2 ∧ optIdxLe o1 o2 := by
  obtain ⟨hne, hsort, hspan⟩ := hwf
  obtain ⟨o1, ho1⟩ := get_current_line_index_total hne t1
  cases o1 with
  | none =>
    obtain ⟨o2, ho2⟩ := get_current_line_index_total hne t2
    exact ⟨none, o2, ho1, ho2, trivial⟩
  | some i =>
    have hi : i < app.lyrics.length := get_current_line_index_lt ho1
    have hmain :
        (∀ j (hj : j < app.lyrics.length), j < i →
          inWindow app.line_delay t2 (app.lyrics[j]) = false) ∧
        (inWindow app.line_delay t2 (app.lyrics[i]) = true ∨
          endedIdx app.lyrics app.line_delay t2 i = true) := by
      rcases get_current_line_index_inv ho1 with
        ⟨hi2, hwin, hmin⟩ | ⟨hallw, hne2, hieq, hend⟩ | ⟨hallw, hi2, hend, -⟩
      · obtain ⟨hws, hwe⟩ := inWindow_eq_true.mp hwin
        refine ⟨fun j hj hji => ?_, ?_⟩
        · have hsj := sorted_start_le hsort (lt_of_le_of_lt (le_of_lt hji) hi) hi (le_of_lt hji)
          exact window_false_persists (by linarith) h12 (hmin j hj hji)
        · by_cases ht2 : t2 < (app.lyrics[i]).end_time + app.line_delay
          · exact Or.inl (inWindow_eq_true.mpr ⟨le_trans hws h12, ht2⟩)
          · exact Or.inr ((endedIdx_eq_true hi).mpr (not_lt.mp ht2))
      · exact gap_case_bound hsort hspan hi hallw hend h12
      · exact gap_case_bound hsort hspan hi hallw hend h12
    obtain ⟨k, hk, hik⟩ := index_lower_bound hne hi hmain.1 hmain.2
    exact ⟨some i, some k, ho1, hk, hik⟩

/-- Witness for C2 at the demo app, `t1 = 1`, `t2 = 2`. -/
theorem active_index_monotone_witness :
    ∃ o1 o2, (KaraokeApp.new 0).get_current_line_index 1 = .ok o1 ∧
      (KaraokeApp.new 0).get_current_line_index 2 = .ok o2 ∧
      optIdxLe o1 o2 :=
  active_index_monotone (KaraokeApp.new 0) 1 2 demo_wellFormed
    (by norm_num) (by norm_num)
    (by norm_num [KaraokeApp.new, initApp, SongConfig.load])

/-- C10: on non-empty lyrics `get_current_line_index` is total (the
internal `lyrics.last().unwrap()` cannot panic) and every returned index
is strictly below the number of lines, so the renderer's indexing is in
bounds; on empty lyrics the function panics (the first scan always finds
no match there). -/
theorem active_index_safety (app : KaraokeApp) (t : ℚ)
    (hne : app.lyrics ≠ []) :
    (∃ o, app.get_current_line_index t = .ok o) ∧
    (∀ i, app.get_current_line_index t = .ok (some i) →
      i < app.lyrics.length) ∧
    (∀ app2 : KaraokeApp, app2.lyrics = [] →
      app2.get_current_line_index t = .error ()) :=
  ⟨get_current_line_index_total hne t,
   fun _ h => get_current_line_index_lt h,
   fun _ h => get_current_line_index_empty h t⟩

/-- Witness for C10 at the demo app, `t = 1`. -/
theorem active_index_safety_witness :
    (∃ o, (KaraokeApp.new 0).get_current_line_index 1 = .ok o) ∧
    (∀ i, (KaraokeApp.new 0).get_current_line_index 1 = .ok (some i) →
      i < (KaraokeApp.new 0).lyrics.length) ∧
    (∀ app2 : KaraokeApp, app2.lyrics = [] →
      app2.get_current_line_index 1 = .error ()) :=
  active_index_safety (KaraokeApp.new 0) 1
    (by simp [KaraokeApp.new, initApp, SongConfig.load])

/-! ## The sync offset is a frame: C8 -/

/-- C8: the sync offset (`line_delay`) only shifts lyric-boundary
comparisons: `get_current_time`, `is_song_ended` and the progress-bar
ratio are independent of `line_delay`, and the two offset-adjust actions
change no field other than `line_delay`. -/
theorem offset_frame (s : KaraokeApp) (d now : ℚ) :
    ({ s with line_delay := d } : KaraokeApp).get_current_time now =
        s.get_current_time now ∧
    ({ s with line_delay := d } : KaraokeApp).is_song_ended now =
        s.is_song_ended now ∧
    progress_ratio { s with line_delay := d } now = progress_ratio s now ∧
    (applyOp now s .offsetUp).song_title = s.song_title ∧
    (applyOp now s .offsetUp).lyrics = s.lyrics ∧
    (applyOp now s .offsetUp).start_time = s.start_time ∧
    (applyOp now s .offsetUp).paused = s.paused ∧
    (applyOp now s .offsetUp).current_position = s.current_position ∧
    (applyOp now s .offsetUp).song_duration = s.song_duration ∧
    (applyOp now s .offsetDown).song_title = s.song_title ∧
    (applyOp now s .offsetDown).lyrics = s.lyrics ∧
    (applyOp now s .offsetDown).start_time = s.start_time ∧
    (applyOp now s .offsetDown).paused = s.paused ∧
    (applyOp now s .offsetDown).current_position = s.current_position ∧
    (applyOp now s .offsetDown).song_duration = s.song_duration :=
  ⟨rfl, rfl, rfl, rfl, rfl, rfl, rfl, rfl, rfl, rfl, rfl, rfl, rfl, rfl, rfl⟩

/-! ## Control-loop state invariants -/

theorem toggle_pause_line_delay (s : KaraokeApp) (now : ℚ) :
    (s.toggle_pause now).line_delay = s.line_delay := by
  unfold KaraokeApp.toggle_pause
  split_ifs with h1
  · rfl
  · dsimp only
    split_ifs <;> rfl

theorem applyOp_line_delay_nonneg (s : KaraokeApp) (now : ℚ) (op : Op)
    (h : 0 ≤ s.line_delay) : 0 ≤ (applyOp now s op).line_delay := by
  cases op with
  | togglePause => rw [show applyOp now s .togglePause = s.toggle_pause now from rfl,
      toggle_pause_line_delay]; exact h
  | restartKey => exact h
  | offsetUp =>
    show 0 ≤ s.line_delay + 0.1
    have h01 : (0:ℚ) ≤ 0.1 := by norm_num
    exact add_nonneg h h01
  | offsetDown => exact le_max_right _ _
  | endClamp =>
    unfold applyOp
    split_ifs <;> exact h

theorem run_line_delay_nonneg (s : KaraokeApp) (tr : List (Op × ℚ))
    (h : 0 ≤ s.line_delay) : 0 ≤ (run s tr).line_delay := by
  induction tr generalizing s with
  | nil => exact h
  | cons e tr ih =>
    exact ih _ (applyOp_line_delay_nonneg s e.2 e.1 h)

/-- One control-loop action preserves `0 ≤ position ≤ duration` and
never changes the duration. -/
theorem applyOp_pos_inv (s : KaraokeApp) (now : ℚ) (op : Op)
    (h1 : 0 ≤ s.current_position) (h2 : s.current_position ≤ s.song_duration) :
    (0 ≤ (applyOp now s op).current_position ∧
      (applyOp now s op).current_position ≤ (applyOp now s op).song_duration) ∧
    (applyOp now s op).song_duration = s.song_duration := by
  cases op with
  | togglePause =>
    simp only [applyOp]
    unfold KaraokeApp.toggle_pause
    split_ifs with hend
    · exact ⟨⟨h1, h2⟩, rfl⟩
    · dsimp only
      split_ifs with hp
      · have hct : ({ s with paused := !s.paused } : KaraokeApp).get_current_time now
            = s.current_position := by
          unfold KaraokeApp.get_current_time
          exact if_pos hp
        refine ⟨⟨?_, ?_⟩, rfl⟩ <;> rw [hct]
        · exact h1
        · exact h2
      · exact ⟨⟨h1, h2⟩, rfl⟩
  | restartKey => exact ⟨⟨le_refl 0, h1.trans h2⟩, rfl⟩
  | offsetUp => exact ⟨⟨h1, h2⟩, rfl⟩
  | offsetDown => exact ⟨⟨h1, h2⟩, rfl⟩
  | endClamp =>
    unfold applyOp
    split_ifs
    · exact ⟨⟨h1.trans h2, le_refl _⟩, rfl⟩
    · exact ⟨⟨h1, h2⟩, rfl⟩

theorem run_pos_inv (s : KaraokeApp) (tr : List (Op × ℚ))
    (h1 : 0 ≤ s.current_position) (h2 : s.current_position ≤ s.song_duration) :
    (0 ≤ (run s tr).current_position ∧
      (run s tr).current_position ≤ (run s tr).song_duration) ∧
    (run s tr).song_duration = s.song_duration := by
  induction tr generalizing s with
  | nil => exact ⟨⟨h1, h2⟩, rfl⟩
  | cons e tr ih =>
    obtain ⟨⟨g1, g2⟩, gd⟩ := applyOp_pos_inv s e.2 e.1 h1 h2
    obtain ⟨hr, hd⟩ := ih _ g1 g2
    exact ⟨hr, hd.trans gd⟩

theorem get_current_time_bounds (s : KaraokeApp) (now : ℚ)
    (h1 : 0 ≤ s.current_position) (h2 : s.current_position ≤ s.song_duration) :
    0 ≤ s.get_current_time now ∧ s.get_current_time now ≤ s.song_duration := by
  unfold KaraokeApp.get_current_time
  split_ifs with hp
  · exact ⟨h1, h2⟩
  · constructor
    · exact le_min (add_nonneg h1 (le_max_right _ _)) (h1.trans h2)
    · exact min_le_right _ _

/-- C4: in every state reachable from the initial state (position `0`,
unpaused) by the control-loop operations (`toggle_pause`, restart, offset
adjust, end-of-song clamp), `get_current_time` lies in `[0, duration]`
and `is_song_ended` is true iff `get_current_time ≥ duration`. -/
theorem clock_invariant (title : String) (lyrics : List LyricLine)
    (dur t0 tq : ℚ) (hdur : 0 ≤ dur) (tr : List (Op × ℚ)) :
    (0 ≤ (run (initApp title lyrics 0 dur t0) tr).get_current_time tq ∧
      (run (initApp title lyrics 0 dur t0) tr).get_current_time tq ≤ dur) ∧
    ((run (initApp title lyrics 0 dur t0) tr).is_song_ended tq = true ↔
      dur ≤ (run (initApp title lyrics 0 dur t0) tr).get_current_time tq) := by
  obtain ⟨⟨g1, g2⟩, gd⟩ :=
    run_pos_inv (initApp title lyrics 0 dur t0) tr (le_refl 0) hdur
  have hsd : (run (initApp title lyrics 0 dur t0) tr).song_duration = dur := gd
  have hb := get_current_time_bounds _ tq g1 g2
  rw [hsd] at hb
  refine ⟨hb, ?_⟩
  unfold KaraokeApp.is_song_ended
  rw [hsd, decide_eq_true_eq]

/-- Witness for C4: the demo data, a short trace, query at `tq = 5`. -/
theorem clock_invariant_witness :
    (0 ≤ (run (initApp "Title here" [] 0 21 0)
        [(Op.togglePause, 2), (Op.offsetUp, 3)]).get_current_time 5 ∧
      (run (initApp "Title here" [] 0 21 0)
        [(Op.togglePause, 2), (Op.offsetUp, 3)]).get_current_time 5 ≤ 21) ∧
    ((run (initApp "Title here" [] 0 21 0)
        [(Op.togglePause, 2), (Op.offsetUp, 3)]).is_song_ended 5 = true ↔
      21 ≤ (run (initApp "Title here" [] 0 21 0)
        [(Op.togglePause, 2), (Op.offsetUp, 3)]).get_current_time 5) :=
  clock_invariant "Title here" [] 21 0 5 (by norm_num)
    [(Op.togglePause, 2), (Op.offsetUp, 3)]

/-- C5 (code bug): `toggle_pause` flips `paused` *before* reading
`get_current_time()`, so the "snapshot" assignment reads the
already-paused branch and is a self-assignment.  Pausing at wall-clock
time 5 (5 seconds into playback of the 21-second demo song) leaves
`current_position = 0` instead of snapshotting 5; the back-to-back
pause/resume round-trip changes `current_time` from 5 to 0. -/
theorem toggle_pause_bug :
    (KaraokeApp.new 0).get_current_time 5 = 5 ∧
    ((KaraokeApp.new 0).toggle_pause 5).paused = true ∧
    ((KaraokeApp.new 0).toggle_pause 5).current_position = 0 ∧
    ((KaraokeApp.new 0).toggle_pause 5).get_current_time 5 = 0 ∧
    (((KaraokeApp.new 0).toggle_pause 5).toggle_pause 5).get_current_time 5
      = 0 := by
  have h5 : (KaraokeApp.new 0).get_current_time 5 = 5 := by
    unfold KaraokeApp.get_current_time KaraokeApp.new initApp SongConfig.load
    norm_num [elapsed]
  have hend : (KaraokeApp.new 0).is_song_ended 5 = false := by
    unfold KaraokeApp.is_song_ended
    rw [h5]
    norm_num [KaraokeApp.new, initApp, SongConfig.load]
  have htp : (KaraokeApp.new 0).toggle_pause 5 =
      { KaraokeApp.new 0 with paused := true } := by
    unfold KaraokeApp.toggle_pause
    rw [hend]
    rfl
  refine ⟨h5, by rw [htp], by rw [htp]; rfl, by rw [htp]; rfl, ?_⟩
  rw [htp]
  have hend2 : ({ KaraokeApp.new 0 with paused := true } : KaraokeApp).is_song_ended 5
      = false := by
    unfold KaraokeApp.is_song_ended KaraokeApp.get_current_time
    norm_num [KaraokeApp.new, initApp, SongConfig.load]
  unfold KaraokeApp.toggle_pause
  rw [hend2]
  unfold KaraokeApp.get_current_time
  norm_num [KaraokeApp.new, initApp, SongConfig.load, elapsed]

/-- C7: the sync offset (`line_delay`) is never negative: it starts at
`0`, Up adds `0.1`, Down subtracts `0.1` clamped at `0` (so Down from `0`
stays `0`), it stays nonnegative in every reachable state, and ten Ups
from the fresh app yield exactly `1`. -/
theorem sync_offset_spec (title : String) (lyrics : List LyricLine)
    (sp dur t0 now : ℚ) (s : KaraokeApp) (tr : List (Op × ℚ))
    (h0 : s.line_delay = 0) :
    (initApp title lyrics sp dur t0).line_delay = 0 ∧
    (applyOp now s .offsetUp).line_delay = s.line_delay + 0.1 ∧
    (applyOp now s .offsetDown).line_delay = max (s.line_delay - 0.1) 0 ∧
    (applyOp now s .offsetDown).line_delay = 0 ∧
    0 ≤ (run (initApp title lyrics sp dur t0) tr).line_delay ∧
    (run (KaraokeApp.new 0)
      (List.replicate 10 (Op.offsetUp, (0:ℚ)))).line_delay = 1 := by
  refine ⟨rfl, rfl, rfl, ?_, ?_, ?_⟩
  · show max (s.line_delay - 0.1) 0 = 0
    rw [h0]
    norm_num
  · exact run_line_delay_nonneg _ tr (le_refl 0)
  · norm_num [run, applyOp, List.replicate, KaraokeApp.new, initApp]

/-- Witness for C7 at a concrete zero-offset state. -/
theorem sync_offset_spec_witness :
    (initApp "t" [] 0 21 0).line_delay = 0 ∧
    (applyOp 0 (KaraokeApp.new 0) .offsetUp).line_delay =
      (KaraokeApp.new 0).line_delay + 0.1 ∧
    (applyOp 0 (KaraokeApp.new 0) .offsetDown).line_delay =
      max ((KaraokeApp.new 0).line_delay - 0.1) 0 ∧
    (applyOp 0 (KaraokeApp.new 0) .offsetDown).line_delay = 0 ∧
    0 ≤ (run (initApp "t" [] 0 21 0) [(Op.offsetDown, 1)]).line_delay ∧
    (run (KaraokeApp.new 0)
      (List.replicate 10 (Op.offsetUp, (0:ℚ)))).line_delay = 1 :=
  sync_offset_spec "t" [] 0 21 0 0 (KaraokeApp.new 0) [(Op.offsetDown, 1)] rfl

/-! ## Progress bar -/

/-- Every cell strictly after the marker gets zero fill sub-units. -/
theorem filled_le_after_dot {r : ℚ} {W i : ℕ} (h0 : 0 ≤ r)
    (hiW : i < W) (hdot : dot_position r W < i) :
    filled_sub_blocks r W ≤ i * 100 := by
  have hd : ratToUsize ((W : ℚ) * r) < i := by
    unfold dot_position at hdot
    rcases le_total (ratToUsize ((W : ℚ) * r)) (W - 1) with hle | hge
    · rwa [min_eq_left hle] at hdot
    · rw [min_eq_right hge] at hdot
      omega
  have hWr : (0:ℚ) ≤ (W : ℚ) * r := mul_nonneg (by positivity) h0
  have hfl : (0:ℤ) ≤ ⌊(W : ℚ) * r⌋ := Int.floor_nonneg.mpr hWr
  have hd2 : ⌊(W : ℚ) * r⌋ + 1 ≤ (i : ℤ) := by
    unfold ratToUsize at hd
    omega
  have hlt : (W : ℚ) * r < (i : ℚ) := by
    have h1 : (W : ℚ) * r < ⌊(W : ℚ) * r⌋ + 1 := Int.lt_floor_add_one _
    have h2 : ((⌊(W : ℚ) * r⌋ : ℚ) + 1) ≤ (i : ℚ) := by exact_mod_cast hd2
    linarith
  unfold filled_sub_blocks ratToUsize
  rw [Int.toNat_le]
  refine le_of_lt (Int.floor_lt.mpr ?_)
  push_cast
  nlinarith

/-- C6: for `ratio ∈ [0,1]` and width `W`, `create_progress_bar` fills
`floor(W*100*ratio)` sub-units, puts the marker at
`min(floor(W*ratio), W-1)`, renders a non-marker cell "played" iff its
fill is positive, and never renders a cell strictly after the marker as
"played"; with `W = 10`, `ratio = 0.35` the fill is 350 sub-units, the
marker cell is 3, cells 0..2 are played and cells 4..9 unplayed. -/
theorem progress_bar_spec (r : ℚ) (W : ℕ) (h0 : 0 ≤ r) (h1 : r ≤ 1) :
    (create_progress_bar r W).length = W ∧
    (∀ i, i < W → (create_progress_bar r W)[i]? =
      some (if i = dot_position r W then Cell.dot
        else if 0 < min (filled_sub_blocks r W - i * 100) 100 then Cell.played
        else Cell.unplayed)) ∧
    (∀ i, i < W → dot_position r W < i →
      (create_progress_bar r W)[i]? = some Cell.unplayed) ∧
    filled_sub_blocks (7/20) 10 = 350 ∧
    dot_position (7/20) 10 = 3 ∧
    create_progress_bar (7/20) 10 =
      [.played, .played, .played, .dot, .unplayed, .unplayed, .unplayed,
       .unplayed, .unplayed, .unplayed] := by
  have hf : filled_sub_blocks (7/20) 10 = 350 := by
    unfold filled_sub_blocks ratToUsize
    rw [show ((10 * 100 : ℕ) : ℚ) * (7/20) = ((350:ℤ):ℚ) by norm_num,
      Int.floor_intCast]
    rfl
  have hd : dot_position (7/20) 10 = 3 := by
    unfold dot_position ratToUsize
    rw [show ((10 : ℕ) : ℚ) * (7/20) = ((7:ℚ)/2) by norm_num]
    rw [show ⌊(7:ℚ)/2⌋ = 3 by norm_num [Int.floor_eq_iff]]
    rfl
  refine ⟨by simp [create_progress_bar], ?_, ?_, hf, hd, ?_⟩
  · intro i hiW
    simp [create_progress_bar, List.getElem?_map, List.getElem?_range hiW]
  · intro i hiW hdot
    have hz : filled_sub_blocks r W - i * 100 = 0 :=
      Nat.sub_eq_zero_of_le (filled_le_after_dot h0 hiW hdot)
    simp [create_progress_bar, List.getElem?_map, List.getElem?_range hiW,
      hz, hdot.ne']
    exact filled_le_after_dot h0 hiW hdot
  · simp only [create_progress_bar, hf, hd]
    decide

/-- Witness for C6 at `ratio = 7/20`, `W = 10`. -/
theorem progress_bar_spec_witness :
    ((create_progress_bar (7/20) 10).length = 10 ∧
      (∀ i, i < 10 → (create_progress_bar (7/20) 10)[i]? =
        some (if i = dot_position (7/20) 10 then Cell.dot
          else if 0 < min (filled_sub_blocks (7/20) 10 - i * 100) 100 then
            Cell.played
          else Cell.unplayed)) ∧
      (∀ i, i < 10 → dot_position (7/20) 10 < i →
        (create_progress_bar (7/20) 10)[i]? = some Cell.unplayed) ∧
      filled_sub_blocks (7/20) 10 = 350 ∧
      dot_position (7/20) 10 = 3 ∧
      create_progress_bar (7/20) 10 =
        [.played, .played, .played, .dot, .unplayed, .unplayed, .unplayed,
         .unplayed, .unplayed, .unplayed]) :=
  progress_bar_spec (7/20) 10 (by norm_num) (by norm_num)

/-! ## Time formatting -/

/-- C9 counterexample: the claim renders 65 seconds as `"01:05"`, but
`format_time` does not zero-pad the minutes: it produces `"1:05"`. -/
theorem format_time_65_ne : format_time 65 ≠ "01:05" := by
  have hc : i32_cast 65 = 65 := by
    unfold i32_cast
    rw [if_pos (by norm_num : (0:ℚ) ≤ 65)]
    rw [show ((65:ℚ)) = ((65:ℤ):ℚ) by norm_num, Int.floor_intCast]
    norm_num
  unfold format_time
  rw [hc]
  decide

/-- C9 (amended): `format_time` renders nonnegative seconds as
`minutes:seconds` with the minutes *unpadded* (minimal digits) and the
seconds zero-padded to two digits; 65 seconds renders as `"1:05"`. -/
theorem format_time_spec (q : ℚ) (h0q : 0 ≤ q) (hq6 : q ≤ 1000000) :
    format_time q =
      toString ((⌊q⌋).tdiv 60) ++ ":" ++ pad2 ((⌊q⌋).tmod 60) ∧
    format_time 65 = "1:05" ∧
    (∀ z : ℤ, 0 ≤ z → z < 60 → (pad2 z).length = 2) := by
  have hcast : i32_cast q = ⌊q⌋ := by
    unfold i32_cast
    rw [if_pos h0q]
    have hub : ⌊q⌋ ≤ 2147483647 := by
      have hx : (⌊q⌋ : ℚ) ≤ 2147483647 := le_trans (Int.floor_le q) (by linarith)
      exact_mod_cast hx
    have hlb : (-2147483648 : ℤ) ≤ ⌊q⌋ :=
      le_trans (by norm_num) (Int.floor_nonneg.mpr h0q)
    rw [min_eq_right hub, max_eq_right hlb]
  refine ⟨by unfold format_time; rw [hcast], ?_, ?_⟩
  · have hc : i32_cast 65 = 65 := by
      unfold i32_cast
      rw [if_pos (by norm_num : (0:ℚ) ≤ 65)]
      rw [show ((65:ℚ)) = ((65:ℤ):ℚ) by norm_num, Int.floor_intCast]
      norm_num
    unfold format_time
    rw [hc]
    decide
  · intro z hz1 hz2
    interval_cases z <;> decide

/-- Witness for C9 (amended) at `q = 65`. -/
theorem format_time_spec_witness : format_time 65 = "1:05" :=
  (format_time_spec 65 (by norm_num) (by norm_num)).2.1

/-- Witness for C3 at the demo app, line 0, `t = 1`, `t2 = 2`. -/
theorem line_progress_spec_witness :
    0 ≤ (KaraokeApp.new 0).get_line_progress 1 0 ∧
      (KaraokeApp.new 0).get_line_progress 1 0 ≤ 1 :=
  (line_progress_spec (KaraokeApp.new 0) 1 2 0 (by decide)
    (by norm_num [KaraokeApp.new, initApp, SongConfig.load])
    (by norm_num)).2.2.2.1

end Karaoke
